import Mathlib

/-!
Verification development for the `cmdline` Go package (package `cmdline`,
file `cmdline.go`): a command-line flag registry and parser.

The Go source is shallowly embedded below:
* the five typed value slots (`intVar`, `int64Var`, `floatVar`, `stringVar`,
  `boolVar`) become the five constructors of `ArgVar`;
* the `CmdParser` map from names to slots becomes an association list with
  map-style assignment (`updateVar`) and lookup (`lookupVar`);
* printing (`fmt.Println` / `fmt.Printf`) is modelled by returning the list of
  printed lines (without their trailing line terminators);
* Go panics (nil-interface method call in `SetVar`, explicit `panic` in
  `GetVar`, index out of range in `Parse`) are modelled by `Option` / a
  dedicated outcome constructor.

Machine integers: `strconv.ParseInt(value, 10, 64)` is modelled exactly
(optional sign, decimal digits, int64 range check).  `strconv.ParseFloat
(value, 64)` is modelled from its implementation (`special`, `readFloat`,
`underscoreOK` and the conversion to binary64): decimal and `0x` hex
mantissas, underscore digit separators with `underscoreOK`'s placement
rule, case-insensitive `inf`/`infinity` with optional sign and unsigned
`nan`, the `e < 10000` exponent-accumulation cap of `readFloat`, and the
correctly rounded (round to nearest, ties to even) float64 result, whose
overflow is `ErrRange` — a decode failure for the caller.  The rounded
value is recorded as the exact rational it equals; IEEE negative zero is
identified with zero, which no claim observes.  Strings are modelled
byte-for-byte for ASCII input via `List Char`.
-/

namespace Cmdline

/-- Mirrors the Go enumerated type `FlagArgType` with its six constants. -/
inductive FlagArgType where
  | IntFlag
  | Int64Flag
  | FloatFlag
  | StringFlag
  | BoolFlag
  | None
  deriving DecidableEq, Repr

/-- The value a `floatVar` slot holds.  `strconv.ParseFloat` can produce
finite values, infinities and NaN; the finite case records the rounded
float64 as the exact rational it equals (negative zero identified with
zero). -/
inductive GoFloat where
  | finite (q : Rat)
  | inf (neg : Bool)
  | nan
  deriving DecidableEq, Repr

/-- The dynamic (`any`) value returned by `Get`/`GetVar`.  Go's `int` and
`int64` are distinct dynamic types, so they get distinct constructors;
on 64-bit targets both carry a 64-bit signed integer, modelled as `Int`
(every stored value is produced by the range-checked `parseInt64`). -/
inductive Value where
  | int (i : Int)
  | int64 (i : Int)
  | float (f : GoFloat)
  | str (s : String)
  | bool (b : Bool)
  deriving DecidableEq, Repr

/-- Fold a list of decimal digit characters into the `Nat` they denote. -/
def digitsToNat (ds : List Char) : Nat :=
  ds.foldl (fun a c => 10 * a + (c.toNat - '0'.toNat)) 0

/-- Model of Go `strconv.ParseInt(value, 10, 64)`: an optional single sign,
then one or more decimal digits (no underscores when the base is given
explicitly), with the result required to fit in a signed 64-bit integer.
`none` models a non-nil `err`. -/
def parseInt64 (s : String) : Option Int :=
  match s.toList with
  | [] => none
  | c :: cs =>
    let p : Bool × List Char :=
      if c = '+' then (false, cs)
      else if c = '-' then (true, cs)
      else (false, c :: cs)
    let neg := p.1
    let ds := p.2
    if ds = [] then none
    else if ds.all Char.isDigit then
      let v : Int := if neg then -(digitsToNat ds : Int) else (digitsToNat ds : Int)
      if -(2 ^ 63) ≤ v ∧ v ≤ 2 ^ 63 - 1 then some v else none
    else none

/-- Go's `lower` applied through `Char.toLower`: the two agree everywhere
they are consulted (comparisons against lowercase letters). -/
def lowerChar (c : Char) : Char :=
  Char.toLower c

/-- Case-insensitive comparison of a character list against a lowercase word,
as Go's float special-value scan does. -/
def lowerEq (l : List Char) (w : List Char) : Bool :=
  l.map Char.toLower == w

/-- Model of `strconv.special` combined with `ParseFloat`'s whole-string
check: an optional sign followed by case-insensitive `inf`/`infinity`, or —
with no sign, as in the source's `switch` where only the sign case falls
through to the infinity test — case-insensitive `nan`.  A match that does
not consume the whole string makes `ParseFloat` fail, which coincides with
returning `none` here and failing the number scan. -/
def goSpecial (l : List Char) : Option GoFloat :=
  match l with
  | [] => none
  | c :: t =>
    if c = '+' ∨ c = '-' then
      if lowerEq t ['i', 'n', 'f'] || lowerEq t ['i', 'n', 'f', 'i', 'n', 'i', 't', 'y'] then
        some (.inf (c = '-'))
      else none
    else if lowerEq l ['i', 'n', 'f'] || lowerEq l ['i', 'n', 'f', 'i', 'n', 'i', 't', 'y'] then
      some (.inf false)
    else if lowerEq l ['n', 'a', 'n'] then
      some .nan
    else none

/-- A hexadecimal digit, per `readFloat`'s `'0' <= c <= '9'` or lowercased
`'a'..'f'` test. -/
def isHexDigit (c : Char) : Bool :=
  c.isDigit || ('a' ≤ lowerChar c && lowerChar c ≤ 'f')

/-- The numeric value of a hexadecimal digit. -/
def hexDigitVal (c : Char) : Nat :=
  if c.isDigit then c.toNat - '0'.toNat else (lowerChar c).toNat - 'a'.toNat + 10

/-- Fold a list of hexadecimal digit characters into the `Nat` they denote. -/
def hexToNat (ds : List Char) : Nat :=
  ds.foldl (fun a c => 16 * a + hexDigitVal c) 0

/-- One digit run of `readFloat`'s mantissa (or exponent) loop: collect
digits, skipping and flagging underscores, and stop at the first other
character.  Returns (digits, sawUnderscore, rest). -/
def takeDigs (hexb : Bool) : List Char → List Char × Bool × List Char
  | [] => ([], false, [])
  | c :: t =>
    if c = '_' then
      let r := takeDigs hexb t
      (r.1, true, r.2.2)
    else if (if hexb then isHexDigit c else c.isDigit) then
      let r := takeDigs hexb t
      (c :: r.1, r.2.1 || false, r.2.2)
    else ([], false, c :: t)

/-- The state loop of `strconv.underscoreOK`, with `saw` holding the last
character class exactly as the source encodes it (`^` start, `0` digit or
base prefix, `_` underscore, `!` anything else). -/
def uscanLoop (hexb : Bool) : List Char → Char → Bool
  | [], saw => decide (saw ≠ '_')
  | c :: t, saw =>
    if c.isDigit || (hexb && ('a' ≤ lowerChar c && lowerChar c ≤ 'f')) then
      uscanLoop hexb t '0'
    else if c = '_' then
      if saw = '0' then uscanLoop hexb t '_' else false
    else if saw = '_' then false
    else uscanLoop hexb t '!'

/-- Model of `strconv.underscoreOK`: underscores must sit between digits
(with the base prefix counting as a digit). -/
def underscoreOK (l : List Char) : Bool :=
  let l1 :=
    match l with
    | c :: t => if c = '-' ∨ c = '+' then t else l
    | [] => l
  match l1 with
  | '0' :: c2 :: t =>
    if lowerChar c2 = 'b' ∨ lowerChar c2 = 'o' ∨ lowerChar c2 = 'x' then
      uscanLoop (lowerChar c2 = 'x') t '0'
    else uscanLoop false l1 '^'
  | _ => uscanLoop false l1 '^'

/-- Fuel-driven floor of the base-2 logarithm (`fuel ≥ n` suffices), kept
structurally recursive so the kernel can evaluate it. -/
def log2fl : Nat → Nat → Nat
  | 0, _ => 0
  | fuel + 1, n => if 2 ≤ n then log2fl fuel (n / 2) + 1 else 0

/-- Floor of the base-2 logarithm of the positive rational `a / b`, found
from the bit lengths of `a` and `b` and corrected by direct comparison. -/
def flog2Pair (a b : Nat) : Int :=
  let e0 : Int := (log2fl a a : Int) - (log2fl b b : Int)
  let le2 : Int → Bool := fun e =>
    if 0 ≤ e then decide (2 ^ e.toNat * b ≤ a) else decide (b ≤ a * 2 ^ (-e).toNat)
  if le2 (e0 + 1) then e0 + 1
  else if le2 e0 then e0
  else e0 - 1

/-- Round the rational `(if neg then -1 else 1) * a / b` to the nearest
IEEE-754 binary64 value, ties to even, exactly as Go's conversion does
(the fast and slow paths of `atof` all produce this correctly rounded
result).  `none` is the overflow case, where Go returns ±Inf together with
`ErrRange` — a non-nil error.  Underflow rounds to zero with no error, and
IEEE negative zero is identified with zero (no claim distinguishes them).
The returned rational is exactly the rounded float64 value.  A negative
grid exponent `g` means the binade exponent is below 52, so the rounded
significand (at most `2 ^ 53`) cannot reach `2 ^ 1024` and overflow is
impossible there. -/
def roundFloat64 (neg : Bool) (a b : Nat) : Option Rat :=
  if a = 0 then some 0
  else
    let e : Int := flog2Pair a b
    let g : Int := max (e - 52) (-1074)
    let A : Nat := if 0 ≤ g then a else a * 2 ^ (-g).toNat
    let B : Nat := if 0 ≤ g then b * 2 ^ g.toNat else b
    let n0 : Nat := A / B
    let r : Nat := A % B
    let n : Nat :=
      if 2 * r < B then n0
      else if B < 2 * r then n0 + 1
      else if n0 % 2 = 0 then n0 else n0 + 1
    let ovf : Bool :=
      if 0 ≤ g then decide (2 ^ 1024 ≤ n * 2 ^ g.toNat)
      else false
    if ovf then none
    else
      let mag : Nat := if 0 ≤ g then n * 2 ^ g.toNat else n
      let num : Int := if neg then -(mag : Int) else (mag : Int)
      let den : Nat := if 0 ≤ g then 1 else 2 ^ (-g).toNat
      some (mkRat num den)

/-- The exact value of a decimal mantissa `D` scaled by `10 ^ adj`, as a
numerator/denominator pair. -/
def decPair (D : Nat) (adj : Int) : Nat × Nat :=
  if 0 ≤ adj then (D * 10 ^ adj.toNat, 1) else (D, 10 ^ (-adj).toNat)

/-- The exact value of a hexadecimal mantissa `H` scaled by `2 ^ adj`. -/
def hexPair (H : Nat) (adj : Int) : Nat × Nat :=
  if 0 ≤ adj then (H * 2 ^ adj.toNat, 1) else (H, 2 ^ (-adj).toNat)

/-- Model of Go `strconv.ParseFloat(value, 64)`, mirroring `special`,
`readFloat` and `underscoreOK`: optional sign; case-insensitive special
values (`nan` unsigned only); a decimal, or `0x`-prefixed hexadecimal,
mantissa with at most one point and underscores policed by `underscoreOK`;
an optional `e`/`E` (mandatory `p`/`P` for hex) exponent whose first
character after the sign must be a digit and whose digits accumulate with
`readFloat`'s `e < 10000` cap; the whole string must be consumed.  The
value is the correctly rounded float64 of the exact scaled mantissa;
rounding overflow is Go's `ErrRange`, a decode failure.  `none` models a
non-nil `err`. -/
def parseFloat (s : String) : Option GoFloat :=
  match goSpecial s.toList with
  | some f => some f
  | none =>
    let l := s.toList
    let q0 : Bool × List Char :=
      match l with
      | '+' :: t => (false, t)
      | '-' :: t => (true, t)
      | t => (false, t)
    let neg := q0.1
    let l1 := q0.2
    let hexb : Bool :=
      match l1 with
      | '0' :: c2 :: _ :: _ => lowerChar c2 = 'x'
      | _ => false
    let body := if hexb then l1.drop 2 else l1
    let m1 := takeDigs hexb body
    let ip := m1.1
    let u1 := m1.2.1
    let r1 := m1.2.2
    let m2 : List Char × Bool × List Char :=
      match r1 with
      | '.' :: t => takeDigs hexb t
      | t => ([], false, t)
    let fp := m2.1
    let u2 := m2.2.1
    let r2 := m2.2.2
    if ip = [] ∧ fp = [] then none
    else
      let ec0 : Char := if hexb then 'p' else 'e'
      let eres : Option (Int × Bool) :=
        match r2 with
        | [] => if hexb then none else some (0, false)
        | ec :: t =>
          if lowerChar ec = ec0 then
            let z : Bool × List Char :=
              match t with
              | '+' :: u => (false, u)
              | '-' :: u => (true, u)
              | u => (false, u)
            let eneg := z.1
            let t1 := z.2
            match t1 with
            | [] => none
            | d :: _ =>
              if d.isDigit then
                let m3 := takeDigs false t1
                if m3.2.2 = [] then
                  let e : Nat := m3.1.foldl
                    (fun e c => if e < 10000 then e * 10 + (c.toNat - '0'.toNat) else e) 0
                  some ((if eneg then -(e : Int) else (e : Int)), m3.2.1)
                else none
              else none
          else none
      match eres with
      | none => none
      | some (eInt, u3) =>
        if (u1 || u2 || u3) && !underscoreOK l then none
        else
          let pair : Nat × Nat :=
            if hexb then hexPair (hexToNat (ip ++ fp)) (eInt - 4 * (fp.length : Int))
            else decPair (digitsToNat (ip ++ fp)) (eInt - (fp.length : Int))
          match roundFloat64 neg pair.1 pair.2 with
          | none => none
          | some r => some (.finite r)

/-- The five slot types `intVar`, `int64Var`, `floatVar`, `stringVar`,
`boolVar` of the source, as one sum.  Field order follows the structs:
`v_name`, `v_value`, `v_req`, `v_loaded`. -/
inductive ArgVar where
  | intVar (v_name : String) (v_value : Int) (v_req : Bool) (v_loaded : Bool)
  | int64Var (v_name : String) (v_value : Int) (v_req : Bool) (v_loaded : Bool)
  | floatVar (v_name : String) (v_value : GoFloat) (v_req : Bool) (v_loaded : Bool)
  | stringVar (v_name : String) (v_value : String) (v_req : Bool) (v_loaded : Bool)
  | boolVar (v_name : String) (v_value : Bool) (v_req : Bool) (v_loaded : Bool)
  deriving DecidableEq, Repr

namespace ArgVar

/-- The `ArgType()` method of each slot type. -/
def ArgType : ArgVar → FlagArgType
  | .intVar .. => .IntFlag
  | .int64Var .. => .Int64Flag
  | .floatVar .. => .FloatFlag
  | .stringVar .. => .StringFlag
  | .boolVar .. => .BoolFlag

/-- The `Name()` method of each slot type. -/
def Name : ArgVar → String
  | .intVar n .. => n
  | .int64Var n .. => n
  | .floatVar n .. => n
  | .stringVar n .. => n
  | .boolVar n .. => n

/-- The `Set(value string)` method of each slot type.  Returns the updated
slot together with the lines it prints.  The integer and float slots parse
the raw string and, on decode failure, print a diagnostic, leaving the slot
unchanged; they return no error to the caller.  The `int64Var` diagnostic
keeps the source's spelling. -/
def Set : ArgVar → String → ArgVar × List String
  | .intVar n v r l, value =>
    match parseInt64 value with
    | none => (.intVar n v r l, ["Error setting integer flag variable"])
    | some sv => (.intVar n sv r true, [])
  | .int64Var n v r l, value =>
    match parseInt64 value with
    | none => (.int64Var n v r l, ["Error seting integer flag variable"])
    | some sv => (.int64Var n sv r true, [])
  | .floatVar n v r l, value =>
    match parseFloat value with
    | none => (.floatVar n v r l, ["Error setting float in cmdline"])
    | some fv => (.floatVar n fv r true, [])
  | .stringVar n _ r _, value => (.stringVar n value r true, [])
  | .boolVar n _ r _, value =>
    (.boolVar n (value = "T" || value = "t" || value = "True" || value = "true") r true, [])

/-- The `Get()` method of each slot type, returning the `any`-typed value. -/
def Get : ArgVar → Value
  | .intVar _ v .. => .int v
  | .int64Var _ v .. => .int64 v
  | .floatVar _ v .. => .float v
  | .stringVar _ v .. => .str v
  | .boolVar _ v .. => .bool v

/-- The `Loaded()` method of each slot type. -/
def Loaded : ArgVar → Bool
  | .intVar _ _ _ l => l
  | .int64Var _ _ _ l => l
  | .floatVar _ _ _ l => l
  | .stringVar _ _ _ l => l
  | .boolVar _ _ _ l => l

/-- The `Required()` method of each slot type. -/
def Required : ArgVar → Bool
  | .intVar _ _ r _ => r
  | .int64Var _ _ r _ => r
  | .floatVar _ _ r _ => r
  | .stringVar _ _ r _ => r
  | .boolVar _ _ r _ => r

end ArgVar

/-- Whether `Set` on a slot of kind `t` with raw string `v` succeeds in
decoding (and therefore stores a value and marks the slot loaded).  Depends
on the slot only through its kind. -/
def succOfKind : FlagArgType → String → Bool
  | .IntFlag, v => (parseInt64 v).isSome
  | .Int64Flag, v => (parseInt64 v).isSome
  | .FloatFlag, v => (parseFloat v).isSome
  | .StringFlag, _ => true
  | .BoolFlag, _ => true
  | .None, _ => true

/-- The kind's zero value: the payload a freshly constructed slot holds,
since the Go constructors leave `v_value` zero-initialized. -/
def zeroValue : FlagArgType → Value
  | .IntFlag => .int 0
  | .Int64Flag => .int64 0
  | .FloatFlag => .float (.finite 0)
  | .StringFlag => .str ""
  | .BoolFlag => .bool false
  | .None => .str ""

/-- The `CmdParser` struct: its `vars` map from flag names to slots,
modelled as an association list with unique keys. -/
abbrev CmdParser := List (String × ArgVar)

/-- `NewCmdParser()`: the empty registry. -/
def NewCmdParser : CmdParser := []

/-- Go map read `cp.vars[name]` (with presence bit): first matching key. -/
def lookupVar : CmdParser → String → Option ArgVar
  | [], _ => none
  | (k, a) :: rest, n => if k = n then some a else lookupVar rest n

/-- Go map assignment `cp.vars[name] = v`: replace the binding if the key is
present, otherwise add it. -/
def updateVar : CmdParser → String → ArgVar → CmdParser
  | [], n, a => [(n, a)]
  | (k, b) :: rest, n, a =>
    if k = n then (n, a) :: rest else (k, b) :: updateVar rest n a

/-- The constructor call `AddFlag` dispatches on, per arm of its `switch`:
`createIntVar` … `createBoolVar`.  The `switch` has no arm for `None`, so
that kind yields no slot. -/
def mkVar : FlagArgType → String → Bool → Option ArgVar
  | .IntFlag, n, r => some (.intVar n 0 r false)
  | .Int64Flag, n, r => some (.int64Var n 0 r false)
  | .FloatFlag, n, r => some (.floatVar n (.finite 0) r false)
  | .StringFlag, n, r => some (.stringVar n "" r false)
  | .BoolFlag, n, r => some (.boolVar n false r false)
  | .None, _, _ => none

/-- `CmdParser.AddFlag`: create a slot of the given kind (zero value,
unloaded) and store it under `arg_name`; unknown kinds are ignored. -/
def AddFlag (cp : CmdParser) (arg_type : FlagArgType) (arg_name : String)
    (arg_req : Bool) : CmdParser :=
  match mkVar arg_type arg_name arg_req with
  | some a => updateVar cp arg_name a
  | none => cp

/-- `CmdParser.SetVar`: `cp.vars[name].Set(value)`.  When `name` is absent
the map read yields a nil interface and the method call panics; `none`
models that panic. -/
def SetVar (cp : CmdParser) (name value : String) : Option (CmdParser × List String) :=
  match lookupVar cp name with
  | some a =>
    let so := a.Set value
    some (updateVar cp name so.1, so.2)
  | none => none

/-- `CmdParser.GetVar`: the slot's value when registered; `none` models the
explicit `panic` on an unrecognized name. -/
def GetVar (cp : CmdParser) (name : String) : Option Value :=
  match lookupVar cp name with
  | some a => some a.Get
  | none => none

/-- `CmdParser.IsFlag`: presence of `name` in the map. -/
def IsFlag (cp : CmdParser) (name : String) : Bool :=
  (lookupVar cp name).isSome

/-- `CmdParser.IsLoaded`: false for unregistered names, else the slot's
`Loaded()`. -/
def IsLoaded (cp : CmdParser) (name : String) : Bool :=
  match lookupVar cp name with
  | none => false
  | some a => a.Loaded

/-- `CmdParser.IsRequired`: false for unregistered names, else the slot's
`Required()`. -/
def IsRequired (cp : CmdParser) (name : String) : Bool :=
  match lookupVar cp name with
  | none => false
  | some a => a.Required

/-- The characters `unicode.IsSpace` recognizes in the Latin-1 range, which
is what `strings.Fields` splits on. -/
def isGoSpace (c : Char) : Bool :=
  c = ' ' || c = '\t' || c = '\n' || c = Char.ofNat 11 || c = Char.ofNat 12 ||
    c = '\r' || c = Char.ofNat 133 || c = Char.ofNat 160

/-- Worker for `fields`: split into maximal runs of non-space characters,
carrying the current run in reverse in `cur`. -/
def fieldsAux : List Char → List Char → List String
  | [], cur => if cur = [] then [] else [String.mk cur.reverse]
  | c :: cs, cur =>
    if isGoSpace c then
      if cur = [] then fieldsAux cs []
      else String.mk cur.reverse :: fieldsAux cs []
    else fieldsAux cs (c :: cur)

/-- Model of Go `strings.Fields`: split around runs of whitespace. -/
def fields (s : String) : List String :=
  fieldsAux s.toList []

/-- Model of Go `strings.Join(l, sep)` with a one-space separator. -/
def joinSp (l : List String) : String :=
  String.intercalate " " l

/-- Model of Go `strings.Join(l, ",")`. -/
def commaJoin (l : List String) : String :=
  String.intercalate "," l

/-- Model of Go `strings.Replace(s, one-character pattern, "", 1)`: remove
the first occurrence of character `c`. -/
def removeFirstChar (c : Char) : List Char → List Char
  | [] => []
  | d :: ds => if d = c then ds else d :: removeFirstChar c ds

/-- `strings.Replace(s, "-", "", 1)` as used to form a flag name. -/
def removeFirstDash (s : String) : String :=
  String.mk (removeFirstChar '-' s.toList)

/-- Whether a token is a flag token: `strings.HasPrefix(tok, "-")`. -/
def startsDash (s : String) : Bool :=
  match s.toList with
  | [] => false
  | c :: _ => c = '-'

/-- The `flagValue` struct: one flag name paired with a raw value string. -/
structure FlagValue where
  flag : String
  value : String
  deriving DecidableEq, Repr

/-- The first scanning loop of `ParseFromString`: pair each flag token with
either the literal `"true"` (when it is last, or followed by another flag
token) or the following token.  A non-flag token in flag position stops the
scan; the error carries the remaining tokens `pieces[idx:]`. -/
def scanFlags : List String → Except (List String) (List FlagValue)
  | [] => .ok []
  | [p] =>
    if startsDash p then .ok [⟨removeFirstDash p, "true"⟩]
    else .error [p]
  | p :: q :: rest =>
    if startsDash p then
      if startsDash q then
        (scanFlags (q :: rest)).map (fun l => ⟨removeFirstDash p, "true"⟩ :: l)
      else
        (scanFlags rest).map (fun l => ⟨removeFirstDash p, q⟩ :: l)
    else .error (p :: q :: rest)

/-- The value-application loop of `ParseFromString`: for each pair whose
flag is registered, `SetVar` it (which replaces the slot in place through
the map); unregistered pairs are skipped.  Printed lines accumulate in
order. -/
def applyPairs (cp : CmdParser) : List FlagValue → CmdParser × List String
  | [] => (cp, [])
  | fv :: rest =>
    match lookupVar cp fv.flag with
    | none => applyPairs cp rest
    | some a =>
      let so := a.Set fv.value
      let r := applyPairs (updateVar cp fv.flag so.1) rest
      (r.1, so.2 ++ r.2)

/-- The required-but-missing names, prefixed with `-`, in registry order
(the final loop of `ParseFromString` over `cp.vars`). -/
def missingRequired (cp : CmdParser) : List String :=
  (cp.filter (fun kv => kv.2.Required && !kv.2.Loaded)).map (fun kv => "-" ++ kv.1)

/-- The `fmt.Printf` line for a formatting problem (the trailing `\n` of the
format string is the line terminator and is not stored). -/
def fmtProblem (rest : List String) : String :=
  "formatting problem in command line from " ++ joinSp rest

/-- The diagnostic listing undeclared flags. -/
def notDeclaredMsg (errMsg : List String) : String :=
  "Flags not declared in CmdParser: " ++ commaJoin errMsg ++ ", ignored"

/-- The missing-required diagnostic.  The source builds it with `fmt.Sprint`
(not `Sprintf`), so the `%s` verb is kept literally and the joined names are
concatenated after it. -/
def requiredMissingMsg (errMsg : List String) : String :=
  "Flags required but missing: %s" ++ commaJoin errMsg

/-- The undeclared-flag names collected by `ParseFromString`, each prefixed
with `-`, in scan order. -/
def undeclaredNames (cp : CmdParser) (cmdVar : List FlagValue) : List String :=
  (cmdVar.filter (fun fv => !IsFlag cp fv.flag)).map (fun fv => "-" ++ fv.flag)

/-- `CmdParser.ParseFromString`: returns the success flag, the registry after
the call, and the printed lines in order. -/
def ParseFromString (cp : CmdParser) (cmd_string : String) :
    Bool × CmdParser × List String :=
  let pieces := fields cmd_string
  match scanFlags pieces with
  | .error rest => (false, cp, [fmtProblem rest])
  | .ok cmdVar =>
    let errMsg := undeclaredNames cp cmdVar
    let out1 := if errMsg.length > 0 then [notDeclaredMsg errMsg] else []
    let ap := applyPairs cp cmdVar
    let missing := missingRequired ap.1
    if missing.length > 0 then
      (false, ap.1, out1 ++ ap.2 ++ [requiredMissingMsg missing])
    else
      (true, ap.1, out1 ++ ap.2)

/-- The comment-stripping loop of `ParseFromFile`, scanning `rem` (the
suffix of `orig` from position `idx`) with the running `whitespace` count
`ws`.  The first branch mirrors the source's comparison of the one-character
string against the empty string, which never matches, so only tab advances
the whitespace counter; on `#` the line is either blanked (all-whitespace
prefix) or sliced to `orig[ws:idx]`. -/
def scanLine (orig : List Char) : List Char → Nat → Nat → List Char
  | [], _, _ => orig
  | c :: rest, idx, ws =>
    if String.mk [c] = "" then scanLine orig rest (idx + 1) (ws + 1)
    else if c = '\t' then scanLine orig rest (idx + 1) (ws + 1)
    else if c = '#' then
      if ws = idx then [] else (orig.drop ws).take (idx - ws)
    else scanLine orig rest (idx + 1) ws

/-- One iteration of the line loop of `ParseFromFile`: skip empty lines,
strip comments, and append surviving text (after removing a first `"\n"`,
which scanner lines never contain) to the aggregate with a space. -/
def lineStep (acc : String) (nxt_line : String) : String :=
  if nxt_line = "" then acc
  else
    let t := String.mk (scanLine nxt_line.toList nxt_line.toList 0 0)
    if t ≠ "" then acc ++ " " ++ String.mk (removeFirstChar '\n' t.toList)
    else acc

/-- The aggregate `cmd_string` that `ParseFromFile` builds from the file's
lines before delegating to `ParseFromString`. -/
def fileAggregate (ls : List String) : String :=
  ls.foldl lineStep ""

/-- `CmdParser.ParseFromFile` after a successful open, applied to the file's
lines (the unopenable-file branch is I/O and is not modelled). -/
def ParseFromFile (cp : CmdParser) (ls : List String) :
    Bool × CmdParser × List String :=
  ParseFromString cp (fileAggregate ls)

/-- What `CmdParser.Parse` does with the process argument list before any
actual parsing: exit when only the program name is present, panic with an
index-out-of-range when `-is` has no following filename, otherwise delegate
to file parsing or to the space-joined command line. -/
inductive ParseOutcome where
  | exitNoArgs
  | indexPanic
  | fromFile (filename : String)
  | fromCmdLine (cmd : String)
  deriving DecidableEq, Repr

/-- The argument-dispatch logic of `CmdParser.Parse` over `os.Args`. -/
def Parse (osArgs : List String) : ParseOutcome :=
  if osArgs.length = 1 then .exitNoArgs
  else if osArgs.length > 1 ∧ osArgs.getD 1 "" = "-is" then
    match osArgs.get? 2 with
    | none => .indexPanic
    | some cmdfile => .fromFile cmdfile
  else .fromCmdLine (joinSp (osArgs.drop 1))

/-- The list the comment scan leaves when it meets `#` at index `i` having
counted `w` whitespace characters: blank when the whole prefix counted as
whitespace, else the slice `orig[w:i]`. -/
def sliceRes (orig : List Char) (w i : Nat) : List Char :=
  if w = i then [] else (orig.drop w).take (i - w)

/-! Supporting lemmas about the embedded operations. -/

theorem strLenAppend (a b : String) : (a ++ b).length = a.length + b.length := by
  show (a ++ b).data.length = a.data.length + b.data.length
  rw [String.data_append]
  exact List.length_append _ _

theorem mkSingleNe (c : Char) : String.mk [c] ≠ "" := by
  intro h
  have h2 : [c] = ("" : String).data := congrArg String.data h
  simp at h2

theorem lookupUpdateSelf (cp : CmdParser) (k : String) (a : ArgVar) :
    lookupVar (updateVar cp k a) k = some a := by
  induction cp with
  | nil => simp [updateVar, lookupVar]
  | cons kb rest ih =>
    by_cases h : kb.1 = k
    · simp [updateVar, h, lookupVar]
    · simp [updateVar, h, lookupVar, ih]

theorem lookupUpdateNe (cp : CmdParser) (k n : String) (a : ArgVar) (h : n ≠ k) :
    lookupVar (updateVar cp k a) n = lookupVar cp n := by
  have h2 : ¬ (k = n) := fun hh => h hh.symm
  induction cp with
  | nil => simp [updateVar, lookupVar, h2]
  | cons kb rest ih =>
    by_cases hk : kb.1 = k
    · simp [updateVar, lookupVar, hk, h2]
    · by_cases hn : kb.1 = n
      · simp [updateVar, hk, lookupVar, hn, h]
      · simp [updateVar, hk, lookupVar, hn, ih]

theorem setKeepsKind (a : ArgVar) (v : String) : ((a.Set v).1).ArgType = a.ArgType := by
  cases a <;> simp only [ArgVar.Set] <;> (try split) <;> rfl

theorem setKeepsReq (a : ArgVar) (v : String) : ((a.Set v).1).Required = a.Required := by
  cases a <;> simp only [ArgVar.Set] <;> (try split) <;> rfl

theorem setLoadedMono (a : ArgVar) (v : String) (h : a.Loaded = true) :
    ((a.Set v).1).Loaded = true := by
  cases a <;> simp only [ArgVar.Set] <;> (try split) <;>
    simp_all [ArgVar.Loaded]

theorem setSuccLoaded (a : ArgVar) (v : String)
    (h : succOfKind a.ArgType v = true) : ((a.Set v).1).Loaded = true := by
  cases a <;>
    simp only [ArgVar.Set, ArgVar.ArgType, succOfKind, Option.isSome] at h ⊢ <;>
    (try split) <;> simp_all [ArgVar.Loaded]

theorem setFailId (a : ArgVar) (v : String)
    (h : succOfKind a.ArgType v = false) : (a.Set v).1 = a := by
  cases a <;>
    simp only [ArgVar.Set, ArgVar.ArgType, succOfKind, Option.isSome] at h ⊢ <;>
    (try split) <;> simp_all

theorem setOutLits (a : ArgVar) (v : String) (m : String)
    (h : m ∈ (a.Set v).2) :
    m = "Error setting integer flag variable" ∨
      m = "Error seting integer flag variable" ∨
      m = "Error setting float in cmdline" := by
  cases a <;> simp only [ArgVar.Set] at h <;> (try split at h) <;> simp_all

theorem updateKeepsDom (cp : CmdParser) (k : String) (a b : ArgVar)
    (hk : lookupVar cp k = some b) (n : String) :
    (lookupVar (updateVar cp k a) n).isSome = (lookupVar cp n).isSome := by
  by_cases h : n = k
  · subst h
    rw [lookupUpdateSelf, hk]
    rfl
  · rw [lookupUpdateNe _ _ _ _ h]

theorem applyKeepsDom (ps : List FlagValue) :
    ∀ (cp : CmdParser) (n : String),
      (lookupVar (applyPairs cp ps).1 n).isSome = (lookupVar cp n).isSome := by
  induction ps with
  | nil => intro cp n; rfl
  | cons fv rest ih =>
    intro cp n
    simp only [applyPairs]
    cases hl : lookupVar cp fv.flag with
    | none => exact ih cp n
    | some a =>
      rw [ih _ n, updateKeepsDom cp fv.flag _ a hl n]

theorem applyLoadedMono (ps : List FlagValue) :
    ∀ (cp : CmdParser) (n : String), IsLoaded cp n = true →
      IsLoaded (applyPairs cp ps).1 n = true := by
  induction ps with
  | nil => intro cp n h; exact h
  | cons fv rest ih =>
    intro cp n h
    simp only [applyPairs]
    cases hl : lookupVar cp fv.flag with
    | none => exact ih cp n h
    | some a =>
      apply ih
      unfold IsLoaded at h ⊢
      by_cases he : n = fv.flag
      · subst he
        rw [lookupUpdateSelf]
        rw [hl] at h
        exact setLoadedMono a fv.value h
      · rw [lookupUpdateNe _ _ _ _ he]
        exact h

theorem applyLoadedOfPair (ps : List FlagValue) :
    ∀ (cp : CmdParser) (fv : FlagValue), fv ∈ ps →
      ∀ a, lookupVar cp fv.flag = some a →
        succOfKind a.ArgType fv.value = true →
        IsLoaded (applyPairs cp ps).1 fv.flag = true := by
  induction ps with
  | nil => intro cp fv h; cases h
  | cons g rest ih =>
    intro cp fv hmem a hl hsucc
    rcases List.mem_cons.mp hmem with he | htail
    · subst he
      simp only [applyPairs, hl]
      apply applyLoadedMono
      unfold IsLoaded
      rw [lookupUpdateSelf]
      exact setSuccLoaded a fv.value hsucc
    · simp only [applyPairs]
      cases hg : lookupVar cp g.flag with
      | none => exact ih cp fv htail a hl hsucc
      | some b =>
        by_cases he : fv.flag = g.flag
        · rw [he, hg] at hl
          cases hl
          refine ih _ fv htail ((a.Set g.value).1) ?_ ?_
          · rw [he, lookupUpdateSelf]
          · rw [setKeepsKind]
            exact hsucc
        · refine ih _ fv htail a ?_ hsucc
          rw [lookupUpdateNe _ _ _ _ he]
          exact hl

theorem applySlotUnchanged (ps : List FlagValue) :
    ∀ (cp : CmdParser) (n : String) (a : ArgVar),
      lookupVar cp n = some a →
      (∀ fv ∈ ps, fv.flag = n → succOfKind a.ArgType fv.value = false) →
      lookupVar (applyPairs cp ps).1 n = some a := by
  induction ps with
  | nil => intro cp n a h _; exact h
  | cons g rest ih =>
    intro cp n a hl hfail
    by_cases he : g.flag = n
    · subst he
      have hid : (a.Set g.value).1 = a :=
        setFailId a g.value (hfail g (List.mem_cons_self _ _) rfl)
      have hred : (applyPairs cp (g :: rest)).1
          = (applyPairs (updateVar cp g.flag (a.Set g.value).1) rest).1 := by
        simp only [applyPairs, hl]
      rw [hred, hid]
      exact ih _ g.flag a (by rw [lookupUpdateSelf])
        (fun fv hm hf => hfail fv (List.mem_cons_of_mem _ hm) hf)
    · cases hg : lookupVar cp g.flag with
      | none =>
        have hred : (applyPairs cp (g :: rest)).1 = (applyPairs cp rest).1 := by
          simp only [applyPairs, hg]
        rw [hred]
        exact ih cp n a hl (fun fv hm hf => hfail fv (List.mem_cons_of_mem _ hm) hf)
      | some b =>
        have hred : (applyPairs cp (g :: rest)).1
            = (applyPairs (updateVar cp g.flag (b.Set g.value).1) rest).1 := by
          simp only [applyPairs, hg]
        rw [hred]
        refine ih _ n a ?_ (fun fv hm hf => hfail fv (List.mem_cons_of_mem _ hm) hf)
        rw [lookupUpdateNe _ _ _ _ (fun hh : n = g.flag => he hh.symm)]
        exact hl

theorem applyFilterReg (ps : List FlagValue) :
    ∀ (cp cp₀ : CmdParser),
      (∀ f, (lookupVar cp f).isSome = (lookupVar cp₀ f).isSome) →
      (applyPairs cp ps).1 =
        (applyPairs cp (ps.filter (fun fv => IsFlag cp₀ fv.flag))).1 := by
  induction ps with
  | nil => intro cp cp₀ _; rfl
  | cons g rest ih =>
    intro cp cp₀ hdom
    simp only [applyPairs, List.filter]
    cases hg : lookupVar cp g.flag with
    | none =>
      have hflag : IsFlag cp₀ g.flag = false := by
        unfold IsFlag
        rw [← hdom, hg]
        rfl
      rw [hflag]
      exact ih cp cp₀ hdom
    | some b =>
      have hflag : IsFlag cp₀ g.flag = true := by
        unfold IsFlag
        rw [← hdom, hg]
        rfl
      rw [hflag]
      simp only [applyPairs, hg]
      exact ih _ cp₀ (fun f => by
        rw [updateKeepsDom cp g.flag _ b hg f]
        exact hdom f)

theorem applyOutLits (ps : List FlagValue) :
    ∀ (cp : CmdParser) (m : String), m ∈ (applyPairs cp ps).2 →
      m = "Error setting integer flag variable" ∨
        m = "Error seting integer flag variable" ∨
        m = "Error setting float in cmdline" := by
  induction ps with
  | nil => intro cp m h; cases h
  | cons g rest ih =>
    intro cp m h
    simp only [applyPairs] at h
    cases hg : lookupVar cp g.flag with
    | none =>
      rw [hg] at h
      exact ih cp m h
    | some b =>
      rw [hg] at h
      simp only [List.mem_append] at h
      rcases h with h | h
      · exact setOutLits b g.value m h
      · exact ih _ m h

theorem flagsNotDeclaredNe1 (x : String) :
    "Flags not declared in CmdParser: " ++ x ++ ", ignored" ≠
      "Error setting integer flag variable" := by
  intro h
  have hlen := congrArg String.length h
  rw [strLenAppend, strLenAppend] at hlen
  have e1 : ("Flags not declared in CmdParser: " : String).length = 33 := rfl
  have e2 : (", ignored" : String).length = 9 := rfl
  have e3 : ("Error setting integer flag variable" : String).length = 35 := rfl
  omega

theorem flagsNotDeclaredNe2 (x : String) :
    "Flags not declared in CmdParser: " ++ x ++ ", ignored" ≠
      "Error seting integer flag variable" := by
  intro h
  have hlen := congrArg String.length h
  rw [strLenAppend, strLenAppend] at hlen
  have e1 : ("Flags not declared in CmdParser: " : String).length = 33 := rfl
  have e2 : (", ignored" : String).length = 9 := rfl
  have e3 : ("Error seting integer flag variable" : String).length = 34 := rfl
  omega

theorem flagsNotDeclaredNe3 (x : String) :
    "Flags not declared in CmdParser: " ++ x ++ ", ignored" ≠
      "Error setting float in cmdline" := by
  intro h
  have hlen := congrArg String.length h
  rw [strLenAppend, strLenAppend] at hlen
  have e1 : ("Flags not declared in CmdParser: " : String).length = 33 := rfl
  have e2 : (", ignored" : String).length = 9 := rfl
  have e3 : ("Error setting float in cmdline" : String).length = 30 := rfl
  omega

theorem flagsNotDeclaredNeReq (x y : String) :
    "Flags not declared in CmdParser: " ++ x ++ ", ignored" ≠
      "Flags required but missing: %s" ++ y := by
  intro h
  have h2 := congrArg String.data h
  rw [String.data_append, String.data_append, String.data_append,
    List.append_assoc] at h2
  have h3 := congrArg (List.take 30) h2
  rw [List.take_append_of_le_length (by decide),
    List.take_append_of_le_length (by decide)] at h3
  revert h3
  decide

theorem scanLineAux (orig suf : List Char) :
    ∀ (pre : List Char) (idx ws : Nat), '#' ∉ pre →
      scanLine orig (pre ++ '#' :: suf) idx ws =
        sliceRes orig (ws + pre.count '\t') (idx + pre.length) := by
  intro pre
  induction pre with
  | nil =>
    intro idx ws _
    show (if String.mk ['#'] = "" then scanLine orig suf (idx + 1) (ws + 1)
          else if '#' = '\t' then scanLine orig suf (idx + 1) (ws + 1)
          else if '#' = '#' then
            if ws = idx then [] else (orig.drop ws).take (idx - ws)
          else scanLine orig suf (idx + 1) ws) =
        sliceRes orig (ws + List.count '\t' []) (idx + ([] : List Char).length)
    rw [if_neg (mkSingleNe '#'), if_neg (by decide : ¬ ('#' = '\t')), if_pos rfl]
    simp [sliceRes]
  | cons c cs ih =>
    intro idx ws hpre
    have hc : c ≠ '#' := fun hh => hpre (hh ▸ List.mem_cons_self _ _)
    have hcs : '#' ∉ cs := fun hh => hpre (List.mem_cons_of_mem _ hh)
    show (if String.mk [c] = "" then scanLine orig (cs ++ '#' :: suf) (idx + 1) (ws + 1)
          else if c = '\t' then scanLine orig (cs ++ '#' :: suf) (idx + 1) (ws + 1)
          else if c = '#' then
            if ws = idx then [] else (orig.drop ws).take (idx - ws)
          else scanLine orig (cs ++ '#' :: suf) (idx + 1) ws) =
        sliceRes orig (ws + List.count '\t' (c :: cs)) (idx + (c :: cs).length)
    rw [if_neg (mkSingleNe c)]
    by_cases ht : c = '\t'
    · rw [if_pos ht, ih (idx + 1) (ws + 1) hcs]
      subst ht
      have e1 : ws + List.count '\t' ('\t' :: cs) = ws + 1 + List.count '\t' cs := by
        rw [List.count_cons]
        simp
        omega
      have e2 : idx + ('\t' :: cs).length = idx + 1 + cs.length := by
        rw [List.length_cons]
        omega
      rw [e1, e2]
    · have ht2 : ¬ ('\t' = c) := fun hh => ht hh.symm
      rw [if_neg ht, if_neg hc, ih (idx + 1) ws hcs]
      have e1 : ws + List.count '\t' (c :: cs) = ws + List.count '\t' cs := by
        rw [List.count_cons]
        simp [ht, ht2]
      have e2 : idx + (c :: cs).length = idx + 1 + cs.length := by
        rw [List.length_cons]
        omega
      rw [e1, e2]

theorem parseErrEq (cp : CmdParser) (s : String) (rest : List String)
    (herr : scanFlags (fields s) = .error rest) :
    ParseFromString cp s = (false, cp, [fmtProblem rest]) := by
  simp only [ParseFromString, herr]

theorem parseOkEq (cp : CmdParser) (s : String) (pairs : List FlagValue)
    (hok : scanFlags (fields s) = .ok pairs) :
    ParseFromString cp s =
      (if (missingRequired (applyPairs cp pairs).1).length > 0 then
        (false, (applyPairs cp pairs).1,
          (if (undeclaredNames cp pairs).length > 0 then
            [notDeclaredMsg (undeclaredNames cp pairs)] else [])
            ++ (applyPairs cp pairs).2
            ++ [requiredMissingMsg (missingRequired (applyPairs cp pairs).1)])
      else
        (true, (applyPairs cp pairs).1,
          (if (undeclaredNames cp pairs).length > 0 then
            [notDeclaredMsg (undeclaredNames cp pairs)] else [])
            ++ (applyPairs cp pairs).2)) := by
  simp only [ParseFromString, hok]

/-! The claims. -/

/-- C1: for every input in which a token that does not begin with a dash
stands where a flag token was expected (it was not consumed as the value of
the preceding flag token — exactly the situation in which the scanning loop
stops with an error), `ParseFromString` returns false immediately, prints
the offending remainder of the token list, and leaves the registry exactly
as it was: no slot's value or loaded field changes. -/
theorem C1_malformed_stream_fails_without_state (cp : CmdParser) (s : String)
    (rest : List String) (herr : scanFlags (fields s) = .error rest) :
    ParseFromString cp s = (false, cp, [fmtProblem rest]) :=
  parseErrEq cp s rest herr

/-- Witness for C1: parsing `"foo -n 5"` against a one-flag registry. -/
theorem C1_witness :
    scanFlags (fields "foo -n 5") = .error ["foo", "-n", "5"] ∧
      ParseFromString (AddFlag NewCmdParser .IntFlag "n" false) "foo -n 5" =
        (false, AddFlag NewCmdParser .IntFlag "n" false,
          [fmtProblem ["foo", "-n", "5"]]) :=
  ⟨by rfl, C1_malformed_stream_fails_without_state _ _ _ (by rfl)⟩

/-- C3 counterexample: `"TRUE"` case-insensitively matches `"true"`, yet
`boolVar.Set` stores false for it, so the claimed case-insensitive matching
is false at this input. -/
theorem C3_counterexample :
    "TRUE".toList.map Char.toLower = "true".toList ∧
      ((ArgVar.boolVar "b" false false false).Set "TRUE").1.Get ≠ Value.bool true :=
  ⟨by rfl, by decide⟩

/-- C3 amended: `boolVar.Set` stores true iff the raw string exactly equals
one of the literals `"T"`, `"t"`, `"True"`, `"true"` (case-sensitively);
every other input, including `"TRUE"` and the empty string, stores false;
in all cases loaded becomes true and no diagnostic is printed. -/
theorem C3_bool_set_exact_match (n : String) (v r l : Bool) (raw : String) :
    (((ArgVar.boolVar n v r l).Set raw).1.Get = Value.bool true ↔
      (raw = "T" ∨ raw = "t" ∨ raw = "True" ∨ raw = "true")) ∧
    ((ArgVar.boolVar n v r l).Set raw).1.Loaded = true ∧
    ((ArgVar.boolVar n v r l).Set raw).2 = [] := by
  refine ⟨?_, rfl, rfl⟩
  simp only [ArgVar.Set, ArgVar.Get, Value.bool.injEq, Bool.or_eq_true,
    decide_eq_true_eq]
  tauto

/-- C5: for the int, int64 and float slots, a raw string on which the
decoder fails leaves the slot completely unchanged (value and loaded) and
prints a diagnostic — `Set` returns nothing that signals the failure — and
a raw string that decodes stores the decoded value, marks the slot loaded,
and prints nothing. -/
theorem C5_numeric_set_silent_failure (n raw : String) (r l : Bool) :
    (∀ v : Int, parseInt64 raw = none →
      ((ArgVar.intVar n v r l).Set raw).1 = ArgVar.intVar n v r l ∧
      ((ArgVar.intVar n v r l).Set raw).2 = ["Error setting integer flag variable"]) ∧
    (∀ v sv : Int, parseInt64 raw = some sv →
      ((ArgVar.intVar n v r l).Set raw).1 = ArgVar.intVar n sv r true ∧
      ((ArgVar.intVar n v r l).Set raw).2 = []) ∧
    (∀ v : Int, parseInt64 raw = none →
      ((ArgVar.int64Var n v r l).Set raw).1 = ArgVar.int64Var n v r l ∧
      ((ArgVar.int64Var n v r l).Set raw).2 = ["Error seting integer flag variable"]) ∧
    (∀ v sv : Int, parseInt64 raw = some sv →
      ((ArgVar.int64Var n v r l).Set raw).1 = ArgVar.int64Var n sv r true ∧
      ((ArgVar.int64Var n v r l).Set raw).2 = []) ∧
    (∀ v : GoFloat, parseFloat raw = none →
      ((ArgVar.floatVar n v r l).Set raw).1 = ArgVar.floatVar n v r l ∧
      ((ArgVar.floatVar n v r l).Set raw).2 = ["Error setting float in cmdline"]) ∧
    (∀ v fv : GoFloat, parseFloat raw = some fv →
      ((ArgVar.floatVar n v r l).Set raw).1 = ArgVar.floatVar n fv r true ∧
      ((ArgVar.floatVar n v r l).Set raw).2 = []) := by
  refine ⟨?_, ?_, ?_, ?_, ?_, ?_⟩ <;> intro v
  · intro h; simp [ArgVar.Set, h]
  · intro sv h; simp [ArgVar.Set, h]
  · intro h; simp [ArgVar.Set, h]
  · intro sv h; simp [ArgVar.Set, h]
  · intro h; simp [ArgVar.Set, h]
  · intro fv h; simp [ArgVar.Set, h]

/-- Witness for C5: an undecodable integer and the Go-rejected signed NaN
leave their slots untouched, while a decodable float (and Go's underscore
and hex-float forms) is stored and loads the slot. -/
theorem C5_witness :
    parseInt64 "abc" = none ∧
      ((ArgVar.intVar "x" 7 false false).Set "abc").1 = ArgVar.intVar "x" 7 false false ∧
      parseFloat "+nan" = none ∧
      ((ArgVar.floatVar "y" (.finite 0) false false).Set "+nan").1 =
        ArgVar.floatVar "y" (.finite 0) false false ∧
      (parseFloat "1.5").isSome = true ∧
      ((ArgVar.floatVar "y" (.finite 0) false false).Set "1.5").1.Loaded = true ∧
      (parseFloat "1_0").isSome = true ∧ (parseFloat "0x1p4").isSome = true := by
  have hnan : parseFloat "+nan" = none := by decide
  have h15 : (parseFloat "1.5").isSome = true := by decide
  obtain ⟨fv, hfv⟩ : ∃ fv, parseFloat "1.5" = some fv :=
    Option.isSome_iff_exists.mp h15
  refine ⟨by decide, ?_, hnan, ?_, h15, ?_, by decide, by decide⟩
  · exact ((C5_numeric_set_silent_failure "x" "abc" false false).1 7 (by decide)).1
  · exact ((C5_numeric_set_silent_failure "y" "+nan" false false).2.2.2.2.1
      (.finite 0) hnan).1
  · rw [((C5_numeric_set_silent_failure "y" "1.5" false false).2.2.2.2.2
      (.finite 0) fv hfv).1]
    rfl

/-- C6: a flag token has exactly one leading dash stripped to form the flag
name (so `"--name"` yields `"-name"`); when it is the last token or the
next token also begins with a dash it is paired with the literal `"true"`
and scanning advances one position, otherwise it is paired with the next
token and scanning advances two positions. -/
theorem C6_flag_token_pairing (t u : String) (us : List String)
    (ht : startsDash t = true) :
    removeFirstDash t = String.mk (t.toList.tail) ∧
    removeFirstDash "--name" = "-name" ∧
    scanFlags [t] = .ok [⟨removeFirstDash t, "true"⟩] ∧
    (startsDash u = true →
      scanFlags (t :: u :: us) =
        (scanFlags (u :: us)).map (fun l2 => ⟨removeFirstDash t, "true"⟩ :: l2)) ∧
    (startsDash u = false →
      scanFlags (t :: u :: us) =
        (scanFlags us).map (fun l2 => ⟨removeFirstDash t, u⟩ :: l2)) := by
  refine ⟨?_, rfl, ?_, ?_, ?_⟩
  · unfold removeFirstDash
    cases hl : t.toList with
    | nil =>
      simp only [startsDash, hl] at ht
      exact absurd ht (by decide)
    | cons c cs =>
      have hcd : c = '-' := by
        simp only [startsDash, hl, decide_eq_true_eq] at ht
        exact ht
      subst hcd
      simp [removeFirstChar]
  · simp [scanFlags, ht]
  · intro hu
    simp [scanFlags, ht, hu]
  · intro hu
    simp [scanFlags, ht, hu]

/-- Witness for C6: the token `"-n"` followed by a value token and by
another flag token. -/
theorem C6_witness :
    startsDash "-n" = true ∧ startsDash "5" = false ∧
      scanFlags ["-n", "5", "-v"] =
        (scanFlags ["-v"]).map (fun l2 => ⟨removeFirstDash "-n", "5"⟩ :: l2) :=
  ⟨by rfl, by rfl,
    (C6_flag_token_pairing "-n" "5" ["-v"] (by rfl)).2.2.2.2 (by rfl)⟩

/-- C8: calling `SetVar` or `GetVar` with an unregistered name aborts (the
nil-interface method call, respectively the explicit panic, modelled by
`none`) rather than returning normally; for a registered name `GetVar`
returns the slot's current value. -/
theorem C8_unregistered_lookup_aborts (cp : CmdParser) (name value : String) :
    (IsFlag cp name = false →
      SetVar cp name value = none ∧ GetVar cp name = none) ∧
    (∀ a, lookupVar cp name = some a → GetVar cp name = some a.Get) := by
  constructor
  · intro h
    unfold IsFlag at h
    cases hl : lookupVar cp name with
    | none => exact ⟨by simp [SetVar, hl], by simp [GetVar, hl]⟩
    | some a => rw [hl] at h; simp at h
  · intro a hl
    simp [GetVar, hl]

/-- Witness for C8: the empty registry aborts on `"x"`; a registered int
flag returns its zero value. -/
theorem C8_witness :
    SetVar NewCmdParser "x" "1" = none ∧ GetVar NewCmdParser "x" = none ∧
      GetVar (AddFlag NewCmdParser .IntFlag "n" false) "n" = some (Value.int 0) := by
  refine ⟨?_, ?_, ?_⟩
  · exact ((C8_unregistered_lookup_aborts NewCmdParser "x" "1").1 (by rfl)).1
  · exact ((C8_unregistered_lookup_aborts NewCmdParser "x" "1").1 (by rfl)).2
  · exact (C8_unregistered_lookup_aborts (AddFlag NewCmdParser .IntFlag "n" false) "n" "").2
      (ArgVar.intVar "n" 0 false false) (by rfl)

/-- C10: with the argument list `["prog", "-is"]` (program name plus the
lone token `-is`), `Parse` reads the third argument unconditionally and
aborts with an index-out-of-range panic instead of reporting a parse
failure or returning false. -/
theorem C10_parse_is_without_file_panics :
    Parse ["prog", "-is"] = ParseOutcome.indexPanic := by
  rfl

/-- C2: when some registered flag is still required-but-unloaded after all
parsed pairs were applied, `ParseFromString` prints a diagnostic carrying
the missing names and returns false, while the registry keeps exactly the
applied state (no rollback): every pair whose registered slot decoded is
still loaded and `GetVar` still answers from the applied registry. -/
theorem C2_required_missing_fails_keeps_values (cp : CmdParser) (s : String)
    (pairs : List FlagValue)
    (hok : scanFlags (fields s) = .ok pairs)
    (hmiss : missingRequired (applyPairs cp pairs).1 ≠ []) :
    (ParseFromString cp s).1 = false ∧
    (ParseFromString cp s).2.1 = (applyPairs cp pairs).1 ∧
    requiredMissingMsg (missingRequired (applyPairs cp pairs).1) ∈
      (ParseFromString cp s).2.2 ∧
    (∀ fv ∈ pairs, ∀ a, lookupVar cp fv.flag = some a →
      succOfKind a.ArgType fv.value = true →
      IsLoaded (ParseFromString cp s).2.1 fv.flag = true ∧
      GetVar (ParseFromString cp s).2.1 fv.flag =
        GetVar (applyPairs cp pairs).1 fv.flag) := by
  have hred := parseOkEq cp s pairs hok
  have hlen : (missingRequired (applyPairs cp pairs).1).length > 0 :=
    List.length_pos.mpr hmiss
  rw [if_pos hlen] at hred
  refine ⟨by rw [hred], by rw [hred], ?_, ?_⟩
  · rw [hred]
    simp [List.mem_append]
  · intro fv hfv a hla hsucc
    constructor
    · rw [hred]
      exact applyLoadedOfPair pairs cp fv hfv a hla hsucc
    · rw [hred]

/-- Witness for C2: a required int flag `n` missing from `"-s hello"`; the
parse fails yet the string flag keeps its freshly applied value. -/
theorem C2_witness :
    (ParseFromString
        (AddFlag (AddFlag NewCmdParser .IntFlag "n" true) .StringFlag "s" false)
        "-s hello").1 = false ∧
      IsLoaded (ParseFromString
        (AddFlag (AddFlag NewCmdParser .IntFlag "n" true) .StringFlag "s" false)
        "-s hello").2.1 "s" = true ∧
      GetVar (ParseFromString
        (AddFlag (AddFlag NewCmdParser .IntFlag "n" true) .StringFlag "s" false)
        "-s hello").2.1 "s" = some (Value.str "hello") := by
  have h := C2_required_missing_fails_keeps_values
    (AddFlag (AddFlag NewCmdParser .IntFlag "n" true) .StringFlag "s" false)
    "-s hello" [⟨"s", "hello"⟩] (by rfl) (by decide)
  refine ⟨h.1, ?_, ?_⟩
  · exact (h.2.2.2 ⟨"s", "hello"⟩ (by decide)
      (ArgVar.stringVar "s" "" false false) (by rfl) (by rfl)).1
  · rw [h.2.1]
    decide

/-- C4 counterexample: the scan keeps `"\tb"` from the line `"a\tb#c"`,
not the full pre-`#` text `"a\tb"` (the tab was counted as whitespace and
stripped from the front); and the line `" #x"`, whose `#` is preceded only
by a space, is not treated as blank: it contributes `" "` (so the aggregate
`"  "` is not empty), because the scan's space test compares against the
empty string and never matches. -/
theorem C4_counterexample :
    String.mk (scanLine ("a\tb#c".toList) ("a\tb#c".toList) 0 0) = "\tb" ∧
      ("\tb" : String) ≠ "a\tb" ∧
      fileAggregate [" #x"] = "  " ∧ ("  " : String) ≠ "" := by
  exact ⟨by rfl, by decide, by rfl, by decide⟩

/-- C4 amended: on a line whose first `#` follows the character prefix
`pre`, the scan counts only tab characters of `pre` as whitespace (its
space test is a comparison against the empty string, which never matches).
When every character of `pre` is a tab the line is treated as fully blank
and contributes nothing to the aggregate; otherwise the kept text is `pre`
with its first tab-count characters dropped — not all of positions
`0..#-1`. -/
theorem C4_comment_scan_amended (line : String) (pre suf : List Char)
    (hsplit : line.toList = pre ++ '#' :: suf) (hpre : '#' ∉ pre) :
    String.mk (scanLine line.toList line.toList 0 0) =
      (if List.count '\t' pre = pre.length then ""
       else String.mk (pre.drop (List.count '\t' pre))) ∧
    (List.count '\t' pre = pre.length → ∀ acc, lineStep acc line = acc) := by
  have hscan : String.mk (scanLine line.toList line.toList 0 0)
      = (if List.count '\t' pre = pre.length then ""
         else String.mk (pre.drop (List.count '\t' pre))) := by
    rw [hsplit, scanLineAux _ suf pre 0 0 hpre]
    simp only [Nat.zero_add, sliceRes]
    by_cases hw : List.count '\t' pre = pre.length
    · rw [if_pos hw, if_pos hw]
    · rw [if_neg hw, if_neg hw]
      have hwle : List.count '\t' pre ≤ pre.length := List.count_le_length _ _
      rw [List.drop_append_of_le_length hwle,
        List.take_left' (by rw [List.length_drop])]
  refine ⟨hscan, ?_⟩
  intro hw acc
  by_cases hline : line = ""
  · simp [lineStep, hline]
  · rw [if_pos hw] at hscan
    have hscan2 : String.mk (scanLine line.data line.data 0 0) = "" := hscan
    simp [lineStep, hline, hscan2]

/-- Witness for C4 amended: the line `"a\tb#c"` keeps `"\tb"` (one tab
before the `#`, so one character is dropped from the front), and the
all-tab-prefix line `"\t\t#x"` contributes nothing. -/
theorem C4_witness :
    String.mk (scanLine ("a\tb#c".toList) ("a\tb#c".toList) 0 0) =
      String.mk ((['a', '\t', 'b'] : List Char).drop 1) ∧
      lineStep "-n 5" "\t\t#x" = "-n 5" := by
  constructor
  · have h := C4_comment_scan_amended "a\tb#c" ['a', '\t', 'b'] ['c']
      (by rfl) (by decide)
    rw [h.1, if_neg (by decide)]
    decide
  · have h := C4_comment_scan_amended "\t\t#x" ['\t', '\t'] ['x']
      (by rfl) (by decide)
    exact h.2 (by decide) "-n 5"

/-- C7: when the well-formed input contains a pair whose flag name is not
registered, `ParseFromString` prints exactly one diagnostic listing the
undeclared names (comma-joined, each dash-prefixed), does not fail on their
account (it returns true whenever no required flag is left unloaded),
creates no entry for any unregistered name, and produces the same registry
as applying only the registered pairs. -/
theorem C7_unregistered_reported_not_fatal (cp : CmdParser) (s : String)
    (pairs : List FlagValue) (u : FlagValue)
    (hok : scanFlags (fields s) = .ok pairs)
    (hu : u ∈ pairs) (hureg : IsFlag cp u.flag = false) :
    ((ParseFromString cp s).2.2).count (notDeclaredMsg (undeclaredNames cp pairs)) = 1 ∧
    (missingRequired (applyPairs cp pairs).1 = [] → (ParseFromString cp s).1 = true) ∧
    (∀ n2, IsFlag cp n2 = false → lookupVar (ParseFromString cp s).2.1 n2 = none) ∧
    (ParseFromString cp s).2.1 =
      (applyPairs cp (pairs.filter (fun fv => IsFlag cp fv.flag))).1 := by
  have hne : undeclaredNames cp pairs ≠ [] := by
    unfold undeclaredNames
    intro hnil
    have humem : u ∈ pairs.filter (fun fv => !IsFlag cp fv.flag) :=
      List.mem_filter.mpr ⟨hu, by rw [hureg]; rfl⟩
    rw [List.map_eq_nil_iff] at hnil
    rw [hnil] at humem
    cases humem
  have hlen1 : (undeclaredNames cp pairs).length > 0 := List.length_pos.mpr hne
  have hcnt2 : ((applyPairs cp pairs).2).count
      (notDeclaredMsg (undeclaredNames cp pairs)) = 0 := by
    rw [List.count_eq_zero]
    intro hmem
    rcases applyOutLits pairs cp _ hmem with h | h | h
    · exact flagsNotDeclaredNe1 _ h
    · exact flagsNotDeclaredNe2 _ h
    · exact flagsNotDeclaredNe3 _ h
  have hcnt1 : ([notDeclaredMsg (undeclaredNames cp pairs)]).count
      (notDeclaredMsg (undeclaredNames cp pairs)) = 1 := by
    simp
  have hreg : (ParseFromString cp s).2.1 = (applyPairs cp pairs).1 := by
    have hred := parseOkEq cp s pairs hok
    by_cases hm : (missingRequired (applyPairs cp pairs).1).length > 0
    · rw [if_pos hm] at hred
      rw [hred]
    · rw [if_neg hm] at hred
      rw [hred]
  refine ⟨?_, ?_, ?_, ?_⟩
  · have hred := parseOkEq cp s pairs hok
    by_cases hm : (missingRequired (applyPairs cp pairs).1).length > 0
    · rw [if_pos hm, if_pos hlen1] at hred
      rw [hred]
      simp only [List.count_append, hcnt1, hcnt2]
      have hcnt3 : ([requiredMissingMsg (missingRequired (applyPairs cp pairs).1)]).count
          (notDeclaredMsg (undeclaredNames cp pairs)) = 0 := by
        rw [List.count_eq_zero]
        intro hmem
        rw [List.mem_singleton] at hmem
        exact flagsNotDeclaredNeReq _ _ hmem
      rw [hcnt3]
    · rw [if_neg hm, if_pos hlen1] at hred
      rw [hred]
      simp only [List.count_append, hcnt1, hcnt2]
  · intro hempty
    have hred := parseOkEq cp s pairs hok
    rw [if_neg (by rw [hempty]; simp)] at hred
    rw [hred]
  · intro n2 hflag
    rw [hreg]
    have hnone : lookupVar cp n2 = none := by
      unfold IsFlag at hflag
      cases hl2 : lookupVar cp n2 with
      | none => rfl
      | some b => rw [hl2] at hflag; simp at hflag
    have hdom := applyKeepsDom pairs cp n2
    rw [hnone] at hdom
    cases hl3 : lookupVar (applyPairs cp pairs).1 n2 with
    | none => rfl
    | some b => rw [hl3] at hdom; simp at hdom
  · rw [hreg]
    exact applyFilterReg pairs cp cp (fun f => rfl)

/-- Witness for C7: `"-x 1 -n 5"` against a registry holding only `n`; the
unregistered `x` is reported once, the parse succeeds, no slot `x`
appears, and `n` is applied. -/
theorem C7_witness :
    ((ParseFromString (AddFlag NewCmdParser .IntFlag "n" false) "-x 1 -n 5").2.2).count
      (notDeclaredMsg (undeclaredNames (AddFlag NewCmdParser .IntFlag "n" false)
        [⟨"x", "1"⟩, ⟨"n", "5"⟩])) = 1 ∧
    (ParseFromString (AddFlag NewCmdParser .IntFlag "n" false) "-x 1 -n 5").1 = true ∧
    lookupVar (ParseFromString (AddFlag NewCmdParser .IntFlag "n" false)
      "-x 1 -n 5").2.1 "x" = none := by
  have h := C7_unregistered_reported_not_fatal
    (AddFlag NewCmdParser .IntFlag "n" false) "-x 1 -n 5"
    [⟨"x", "1"⟩, ⟨"n", "5"⟩] ⟨"x", "1"⟩ (by rfl) (by decide) (by rfl)
  exact ⟨h.1, h.2.1 (by decide), h.2.2.1 "x" (by rfl)⟩

/-- C9: a flag registered by `AddFlag` on which no decodable value ever
arrived during the parse stays unloaded and `GetVar` answers the kind's
zero value (0, 0, 0.0, "", false — the Go zero-initialized payload). -/
theorem C9_never_set_zero (cp : CmdParser) (t : FlagArgType) (n : String)
    (req : Bool) (a : ArgVar) (s : String)
    (hmk : mkVar t n req = some a)
    (hnodec : ∀ pairs, scanFlags (fields s) = .ok pairs →
      ∀ fv ∈ pairs, fv.flag = n → succOfKind a.ArgType fv.value = false) :
    IsLoaded (ParseFromString (AddFlag cp t n req) s).2.1 n = false ∧
    GetVar (ParseFromString (AddFlag cp t n req) s).2.1 n = some (zeroValue t) := by
  have hfresh : a.Loaded = false ∧ a.Get = zeroValue t := by
    cases t with
    | IntFlag =>
      simp only [mkVar, Option.some.injEq] at hmk
      subst hmk
      exact ⟨rfl, rfl⟩
    | Int64Flag =>
      simp only [mkVar, Option.some.injEq] at hmk
      subst hmk
      exact ⟨rfl, rfl⟩
    | FloatFlag =>
      simp only [mkVar, Option.some.injEq] at hmk
      subst hmk
      exact ⟨rfl, rfl⟩
    | StringFlag =>
      simp only [mkVar, Option.some.injEq] at hmk
      subst hmk
      exact ⟨rfl, rfl⟩
    | BoolFlag =>
      simp only [mkVar, Option.some.injEq] at hmk
      subst hmk
      exact ⟨rfl, rfl⟩
    | None => simp [mkVar] at hmk
  have hadd : AddFlag cp t n req = updateVar cp n a := by
    unfold AddFlag
    rw [hmk]
  have hlook : lookupVar (AddFlag cp t n req) n = some a := by
    rw [hadd, lookupUpdateSelf]
  cases hsc : scanFlags (fields s) with
  | error rest =>
    have hred := parseErrEq (AddFlag cp t n req) s rest hsc
    rw [hred]
    constructor
    · show IsLoaded (AddFlag cp t n req) n = false
      unfold IsLoaded
      rw [hlook]
      exact hfresh.1
    · show GetVar (AddFlag cp t n req) n = some (zeroValue t)
      unfold GetVar
      rw [hlook]
      show some a.Get = some (zeroValue t)
      rw [hfresh.2]
  | ok pairs =>
    have hslot : lookupVar (applyPairs (AddFlag cp t n req) pairs).1 n = some a :=
      applySlotUnchanged pairs _ n a hlook
        (fun fv hm hf => hnodec pairs hsc fv hm hf)
    have hred := parseOkEq (AddFlag cp t n req) s pairs hsc
    have hfin : ∀ cpf : CmdParser,
        lookupVar cpf n = some a →
        IsLoaded cpf n = false ∧ GetVar cpf n = some (zeroValue t) := by
      intro cpf hlf
      constructor
      · unfold IsLoaded
        rw [hlf]
        exact hfresh.1
      · unfold GetVar
        rw [hlf]
        show some a.Get = some (zeroValue t)
        rw [hfresh.2]
    by_cases hm : (missingRequired (applyPairs (AddFlag cp t n req) pairs).1).length > 0
    · rw [if_pos hm] at hred
      rw [hred]
      exact hfin _ hslot
    · rw [if_neg hm] at hred
      rw [hred]
      exact hfin _ hslot

/-- Witness for C9: flag `n` registered as Int, fed only the undecodable
value `"abc"`: it stays unloaded and reads as zero. -/
theorem C9_witness :
    IsLoaded (ParseFromString (AddFlag NewCmdParser .IntFlag "n" false)
      "-n abc").2.1 "n" = false ∧
    GetVar (ParseFromString (AddFlag NewCmdParser .IntFlag "n" false)
      "-n abc").2.1 "n" = some (zeroValue .IntFlag) := by
  refine C9_never_set_zero NewCmdParser .IntFlag "n" false
    (ArgVar.intVar "n" 0 false false) "-n abc" (by rfl) ?_
  intro pairs hp fv hfv hflag
  have h0 : scanFlags (fields "-n abc") = .ok [⟨"n", "abc"⟩] := by rfl
  rw [h0] at hp
  injection hp with hp2
  subst hp2
  rw [List.mem_singleton] at hfv
  subst hfv
  decide

end Cmdline
